import Mathlib

/-!
# geminicommit: prompt assembly and generation call

A shallow embedding of `internal/service/gemini_service.go`.

Go strings are modelled by `String`; every operation the service performs on
them (formatting, joining, JSON encoding of a constant map) is a concatenation,
so nothing depends on how a character is laid out in bytes.  Pointers (the
receiver of `AnalyzeChanges` and the pointers to strings and maps) are `Option`
values (`none` is the nil pointer) and the value of the caller's cell after a
call is returned next to the result.  A Go map is
the list of its entries in the order a `range` loop visits them.
-/

namespace GeminiCommit

/-! ## Go runtime and standard library fragment -/

/-- Go `error` values the service can meet: the two context errors and any
error produced by the provider, carried by its message. -/
inductive GoError
  | contextCanceled
  | deadlineExceeded
  | provider (msg : String)
  deriving DecidableEq, Repr

/-- The method `Error()` of an error value. -/
def GoError.Error : GoError → String
  | .contextCanceled => "context canceled"
  | .deadlineExceeded => "context deadline exceeded"
  | .provider msg => msg

/-- Whether the error is of the cancellation kind (`context.Canceled` or
`context.DeadlineExceeded`). -/
def GoError.isCancellation : GoError → Bool
  | .contextCanceled => true
  | .deadlineExceeded => true
  | .provider _ => false

/-- How a Go call ends: it returns its `(string, error)` pair, it panics, or
the process exits through `os.Exit`. -/
inductive Outcome
  | returned (value : String) (err : Option GoError)
  | panicked (msg : String)
  | exited (code : Nat)
  deriving DecidableEq, Repr

/-- One content part of a provider message (`genai.Part`): a text part, or a
part of another kind carried by what the verb `%v` prints for it. -/
inductive Part
  | text (s : String)
  | other (rendered : String)
  deriving DecidableEq, Repr

/-- An operand of `fmt.Sprintf`. -/
inductive Arg
  | str (s : String)
  | int (n : Int)
  | part (p : Part)
  deriving DecidableEq, Repr

/-- The decimal digit character of `d` (`byte('0' + d)`). -/
def digitChar (d : Nat) : Char := Char.ofNat (48 + d)

/-- The digit loop of `fmt` for base 10: digits are produced from the least
significant one and written in front of what was produced so far
(`for u >= 10 { next := u / 10; buf[i] = '0' + u - next*10; u = next }`,
then the leading digit). -/
def fmtDigits : Nat → Nat → List Char → List Char
  | 0, u, acc => digitChar u :: acc
  | fuel + 1, u, acc =>
    if 10 ≤ u then fmtDigits fuel (u / 10) (digitChar (u - (u / 10) * 10) :: acc)
    else digitChar u :: acc

/-- Verb `%d` on an integer: an optional minus sign and the decimal digits. -/
def fmtInteger (n : Int) : List Char :=
  if n < 0 then '-' :: fmtDigits n.natAbs n.natAbs [] else fmtDigits n.natAbs n.natAbs []

/-- The Go type name `fmt` prints in a bad-verb report. -/
def Arg.typeName : Arg → String
  | .str _ => "string"
  | .int _ => "int"
  | .part (.text _) => "genai.Text"
  | .part (.other _) => "genai.Part"

/-- Verb `%v`: the default rendering of an operand. -/
def Arg.verbV : Arg → List Char
  | .str s => s.data
  | .int n => fmtInteger n
  | .part (.text s) => s.data
  | .part (.other r) => r.data

/-- One verb applied to one operand.  `%s` prints strings (and the string type
`genai.Text`), `%d` prints integers, `%v` prints anything; a verb that does not
fit its operand yields the report `%!verb(type=value)`. -/
def formatVerb (verb : Char) (a : Arg) : List Char :=
  if verb = 'v' then a.verbV
  else if verb = 's' then
    match a with
    | .str s => s.data
    | .part (.text s) => s.data
    | a => '%' :: '!' :: 's' :: '(' :: (a.typeName.data ++ '=' :: (a.verbV ++ [')']))
  else if verb = 'd' then
    match a with
    | .int n => fmtInteger n
    | a => '%' :: '!' :: 'd' :: '(' :: (a.typeName.data ++ '=' :: (a.verbV ++ [')']))
  else '%' :: '!' :: verb :: '(' :: (a.typeName.data ++ '=' :: (a.verbV ++ [')']))

/-- The operands left over when the format is exhausted, as `fmt` lists them. -/
def extraOperands : List Arg → List Char
  | [] => []
  | [a] => a.typeName.data ++ '=' :: a.verbV
  | a :: b :: rest => a.typeName.data ++ '=' :: (a.verbV ++ ',' :: ' ' :: extraOperands (b :: rest))

/-- The tail `%!(EXTRA ...)` that reports unused operands. -/
def extraReport (args : List Arg) : List Char :=
  if args = [] then [] else "%!(EXTRA ".data ++ extraOperands args ++ [')']

/-- The format loop of `fmt.Sprintf` for plain verbs (no flags, width or
explicit indexes, none of which the service uses): literal text is copied, `%%`
prints a percent sign, a verb consumes the next operand, a verb without an
operand prints `%!verb(MISSING)`, a percent sign at the end prints
`%!(NOVERB)`. -/
def sprintfChars : List Char → List Arg → List Char
  | [], args => extraReport args
  | [c], args => if c = '%' then "%!(NOVERB)".data ++ extraReport args else c :: extraReport args
  | c :: v :: rest, args =>
    if c = '%' then
      if v = '%' then '%' :: sprintfChars rest args
      else
        match args with
        | [] => '%' :: '!' :: v :: "(MISSING)".data ++ sprintfChars rest []
        | a :: as => formatVerb v a ++ sprintfChars rest as
    else c :: sprintfChars (v :: rest) args

/-- Go `fmt.Sprintf`. -/
def Sprintf (format : String) (args : List Arg) : String :=
  ⟨sprintfChars format.data args⟩

/-- Go `strings.Join`: the empty string for no element, the element itself for
one, and otherwise the first element followed by separator and element for
every later one. -/
def stringsJoin : List String → String → String
  | [], _ => ""
  | [e], _ => e
  | e :: es, sep => es.foldl (fun b s => b ++ sep ++ s) e

/-- Byte-wise comparison `a <= b` of two strings (`strings.Compare(a, b) <= 0`). -/
def bytesLE : List Char → List Char → Bool
  | [], _ => true
  | _ :: _, [] => false
  | a :: as, b :: bs => if a.toNat < b.toNat then true else if b.toNat < a.toNat then false else bytesLE as bs

/-- The order `encoding/json` sorts map entries by: their keys, byte-wise. -/
def keyLE (a b : String × String) : Prop := bytesLE a.1.data b.1.data = true

instance : DecidableRel keyLE := fun a b => inferInstanceAs (Decidable (bytesLE a.1.data b.1.data = true))

/-- A lower-case hexadecimal digit (`hex[d]` with `hex = "0123456789abcdef"`). -/
def hexChar (d : Nat) : Char := if d < 10 then Char.ofNat (48 + d) else Char.ofNat (87 + d)

/-- The characters `encoding/json` copies unescaped when HTML escaping is on
(`htmlSafeSet`): ASCII from the space on, except the double quote, the
backslash, `<`, `>` and `&`. -/
def htmlSafe (c : Char) : Bool :=
  decide (32 ≤ c.toNat) && c != '"' && c != '\\' && c != '<' && c != '>' && c != '&'

/-- The escape `encoding/json` writes for one character of a string (HTML
escaping on, as `json.Marshal` sets it). -/
def jsonEscapeChar (c : Char) : List Char :=
  if c.toNat < 128 then
    if htmlSafe c then [c]
    else if c = '\\' then ['\\', '\\']
    else if c = '"' then ['\\', '"']
    else if c.toNat = 8 then ['\\', 'b']
    else if c.toNat = 12 then ['\\', 'f']
    else if c = '\n' then ['\\', 'n']
    else if c = '\r' then ['\\', 'r']
    else if c = '\t' then ['\\', 't']
    else ['\\', 'u', '0', '0', hexChar (c.toNat / 16), hexChar (c.toNat % 16)]
  else if c.toNat = 8232 ∨ c.toNat = 8233 then ['\\', 'u', '2', '0', '2', hexChar (c.toNat % 16)]
  else [c]

/-- A string as a JSON string literal. -/
def jsonString (s : String) : List Char :=
  '"' :: (s.data.flatMap jsonEscapeChar ++ ['"'])

/-- The members of a JSON object, in the given order, separated by commas. -/
def jsonMembers : List (String × String) → List Char
  | [] => []
  | [kv] => jsonString kv.1 ++ ':' :: jsonString kv.2
  | kv :: kv2 :: rest => jsonString kv.1 ++ ':' :: (jsonString kv.2 ++ ',' :: jsonMembers (kv2 :: rest))

/-- Go `json.Marshal` on a non-nil `map[string]string`: the entries are sorted
by key and written as one JSON object.  Encoding such a map never fails, so the
error is always nil. -/
def jsonMarshal (m : List (String × String)) : Except GoError String :=
  .ok ⟨'{' :: (jsonMembers (m.insertionSort keyLE) ++ ['}'])⟩

/-! ## The provider interface (`genai`) -/

/-- The harm categories of `genai`. -/
inductive HarmCategory
  | HarmCategoryHarassment
  | HarmCategoryHateSpeech
  | HarmCategoryDangerousContent
  | HarmCategorySexuallyExplicit
  deriving DecidableEq, Repr

/-- The blocking thresholds of `genai`. -/
inductive HarmBlockThreshold
  | HarmBlockLowAndAbove
  | HarmBlockMediumAndAbove
  | HarmBlockOnlyHigh
  | HarmBlockNone
  deriving DecidableEq, Repr

/-- A `genai.SafetySetting`. -/
structure SafetySetting where
  Category : HarmCategory
  Threshold : HarmBlockThreshold
  deriving DecidableEq, Repr

/-- A `genai.Content`: the parts of one message. -/
structure Content where
  Parts : List Part
  deriving DecidableEq, Repr

/-- A `genai.Candidate`; its content is a pointer and may be nil. -/
structure Candidate where
  Content : Option Content
  deriving DecidableEq, Repr

/-- A `genai.GenerateContentResponse`. -/
structure GenerateContentResponse where
  Candidates : List Candidate
  deriving DecidableEq, Repr

/-- A `genai.GenerativeModel` as the service configures it. -/
structure GenerativeModel where
  name : String
  SafetySettings : List SafetySetting
  SystemInstruction : Option Content
  deriving DecidableEq, Repr

/-- A `context.Context`, observed through `Err()`: nil while the context is
live, the cancellation error once it is cancelled or past its deadline. -/
structure Context where
  err : Option GoError
  deriving DecidableEq, Repr

/-- One call of `model.GenerateContent(ctx, parts...)`. -/
structure Request where
  ctx : Context
  model : GenerativeModel
  parts : List Part
  deriving DecidableEq, Repr

/-- The provider client: what `GenerateContent` answers to a request, a
response or an error. -/
abbrev Client := Request → Except GoError GenerateContentResponse

/-! ## The service -/

/-- The struct `GeminiService`. -/
structure GeminiService where
  systemPrompt : String
  deriving DecidableEq, Repr

/-- The map literal passed to `json.Marshal` in `GetUserPrompt`, in the order
the source lists its entries. -/
def conventionalTypesMap : List (String × String) :=
  [("docs", "Documentation only changes"),
   ("style", "Changes that do not affect the meaning of the code (white-space, formatting, missing semi-colons, etc)"),
   ("refactor", "A code change that neither fixes a bug nor adds a feature"),
   ("perf", "A code change that improves performance"),
   ("test", "Adding missing tests or correcting existing tests"),
   ("build", "Changes that affect the build system or external dependencies"),
   ("ci", "Changes to our CI configuration files and scripts"),
   ("chore", "Other changes that don\x27t modify src or test files"),
   ("revert", "Reverts a previous commit"),
   ("feat", "A new feature"),
   ("fix", "A bug fix")]

/-- The format of the intent line. -/
def contextFormat : String := "Use the following context to understand intent: %s"

/-- The format of the commit-history block. -/
def lastCommitFormat : String :=
  "These are the last %d commit messages, if your proposed commit message is related to them, please make sure the commit message is consistent:\n%s\n\n"

/-- The raw string literal that is the format of the user prompt. -/
def promptFormat : String :=
  "Generate a concise git commit message written in past tense for the following code diff with the given specifications below:\n\nThe output response must be in format:\n<type>(<optional scope>): <commit message>\n\n%s\n\nChoose a type from the type-to-description JSON below that best describes the git diff:\n%s\n\nNeighboring files:\n%s\n\n%s\n\nCode diff:\n%s"

/-- The message of the runtime panic for a nil pointer dereference. -/
def nilDereference : String :=
  "runtime error: invalid memory address or nil pointer dereference"

/-- The message of the runtime panic for index 0 of an empty slice. -/
def indexOutOfRange : String :=
  "runtime error: index out of range [0] with length 0"

/-- What a call of `GetUserPrompt` leaves: how it ended, the value of the
caller's context cell afterwards (`none` for a nil pointer) and the lines it
printed. -/
structure PromptCall where
  outcome : Outcome
  context : Option String
  stdout : List String
  deriving DecidableEq, Repr

/-- The method `GetUserPrompt`.  The method never reads its receiver, so the
receiver is carried as the service it points to.  `context` is the pointer
argument: `none` is nil, `some c` a pointer to a cell holding `c`.  In the first branch of the
conditional the local variable is pointed at the fresh string `temp` and the
caller's cell keeps `c`; in the second the caller's cell is assigned `""`.  The
pair `cell` holds the string the local pointer refers to afterwards and the
caller's cell. -/
def GetUserPrompt (_g : GeminiService) (context : Option String) (diff : String)
    (files : List String) (lastCommits : List String) : PromptCall :=
  match context with
  | none => ⟨.panicked nilDereference, none, []⟩
  | some c =>
    let cell : String × String :=
      if c ≠ "" then (Sprintf contextFormat [.str c], c) else ("", "")
    match jsonMarshal conventionalTypesMap with
    | .error err => ⟨.exited 1, some cell.2, ["Error: " ++ err.Error ++ "\n"]⟩
    | .ok conventionalTypes =>
      let lastCommitContext : String :=
        if lastCommits.length > 0 then
          Sprintf lastCommitFormat
            [.int lastCommits.length, .str (stringsJoin lastCommits "\n")]
        else ""
      ⟨.returned
          (Sprintf promptFormat
            [.str cell.1, .str conventionalTypes, .str (stringsJoin files ", "),
             .str lastCommitContext, .str diff])
          none,
        some cell.2, []⟩

/-- The four safety settings `AnalyzeChanges` attaches to the model. -/
def safetySettings : List SafetySetting :=
  [⟨.HarmCategoryHarassment, .HarmBlockNone⟩,
   ⟨.HarmCategoryHateSpeech, .HarmBlockNone⟩,
   ⟨.HarmCategoryDangerousContent, .HarmBlockNone⟩,
   ⟨.HarmCategorySexuallyExplicit, .HarmBlockNone⟩]

/-- What a call of `AnalyzeChanges` leaves: how it ended, the lines it printed,
the provider calls it made and the caller's context cell afterwards. -/
structure Run where
  outcome : Outcome
  stdout : List String
  calls : List Request
  userContext : Option String
  deriving DecidableEq, Repr

/-- The loop that flattens the related files: one `dir/file` string is appended
per entry, in the order the map is ranged over. -/
def flattenRelatedFiles (relatedFiles : List (String × String)) : List String :=
  relatedFiles.foldl (fun arr e => arr ++ [Sprintf "%s/%s" [.str e.1, .str e.2]]) []

/-- The method `AnalyzeChanges`.  The receiver `g`, `userContext`,
`relatedFiles` and `modelName` are pointers, `none` being nil; they are
dereferenced in the order of the source: `*relatedFiles` for the capacity of
the slice, `*modelName` for the model, `g.systemPrompt` for the system
instruction, and `*context` inside `GetUserPrompt`.  `relatedFiles` lists the
entries of the map in the order the `range` loop visits them. -/
def AnalyzeChanges (g : Option GeminiService) (geminiClient : Client) (ctx : Context)
    (diff : String) (userContext : Option String)
    (relatedFiles : Option (List (String × String))) (modelName : Option String)
    (lastCommits : List String) : Run :=
  match relatedFiles with
  | none => ⟨.panicked nilDereference, [], [], userContext⟩
  | some rf =>
    let relatedFilesArray := flattenRelatedFiles rf
    match modelName with
    | none => ⟨.panicked nilDereference, [], [], userContext⟩
    | some name =>
      match g with
      | none => ⟨.panicked nilDereference, [], [], userContext⟩
      | some service =>
        let model : GenerativeModel :=
          ⟨name, safetySettings, some ⟨[.text service.systemPrompt]⟩⟩
        let built := GetUserPrompt service userContext diff relatedFilesArray lastCommits
        match built.outcome with
        | .panicked msg => ⟨.panicked msg, built.stdout, [], built.context⟩
        | .exited code => ⟨.exited code, built.stdout, [], built.context⟩
        | .returned _ (some err) => ⟨.returned "" (some err), built.stdout, [], built.context⟩
        | .returned userPrompt none =>
          let request : Request := ⟨ctx, model, [.text userPrompt]⟩
          match geminiClient request with
          | .error err =>
            ⟨.returned "" none, built.stdout ++ ["Error: " ++ err.Error ++ "\n"], [request],
              built.context⟩
          | .ok resp =>
            match resp.Candidates with
            | [] => ⟨.panicked indexOutOfRange, built.stdout, [request], built.context⟩
            | candidate :: _ =>
              match candidate.Content with
              | none => ⟨.panicked nilDereference, built.stdout, [request], built.context⟩
              | some content =>
                match content.Parts with
                | [] => ⟨.panicked indexOutOfRange, built.stdout, [request], built.context⟩
                | part :: _ =>
                  ⟨.returned (Sprintf "%v" [.part part]) none, built.stdout, [request],
                    built.context⟩

/-- The string literal `NewGeminiService` stores as `systemPrompt`. -/
def systemPromptText : String :=
  "You are a commit message generator that follows these rules:\n1. Write in past tense (e.g., \"added\", \"fixed\", \"updated\")\n2. Be concise and direct\n3. Output the commit message as raw text without any formatting, quotes, or code blocks\n4. Follow the format: <type>(<optional scope>): <commit message>\n5. Commit message should starts with lowercase letter.\n6. Commit message must be a maximum of 72 characters.\n7. Exclude anything unnecessary such as translation. Your entire response will be passed directly into git commit."

/-! ## The prompt as the specification words it -/

/-- The serialized type catalog, as text. -/
def catalogJSON : String :=
  "\x7b\"build\":\"Changes that affect the build system or external dependencies\",\"chore\":\"Other changes that don\x27t modify src or test files\",\"ci\":\"Changes to our CI configuration files and scripts\",\"docs\":\"Documentation only changes\",\"feat\":\"A new feature\",\"fix\":\"A bug fix\",\"perf\":\"A code change that improves performance\",\"refactor\":\"A code change that neither fixes a bug nor adds a feature\",\"revert\":\"Reverts a previous commit\",\"style\":\"Changes that do not affect the meaning of the code (white-space, formatting, missing semi-colons, etc)\",\"test\":\"Adding missing tests or correcting existing tests\"\x7d"

/-- The fixed opening of the prompt, up to and including the blank line after
the format line. -/
def promptHeader : String :=
  "Generate a concise git commit message written in past tense for the following code diff with the given specifications below:\n\nThe output response must be in format:\n<type>(<optional scope>): <commit message>\n\n"

/-- The text in front of the context on the intent line. -/
def intentLead : String := "Use the following context to understand intent: "

/-- The context slot: empty for an empty context, the intent line otherwise. -/
def contextSlot (c : String) : String :=
  if c = "" then "" else intentLead ++ c

/-- The text between the context slot and the catalog. -/
def chooseLine : String :=
  "\n\nChoose a type from the type-to-description JSON below that best describes the git diff:\n"

/-- The text between the catalog and the file list. -/
def neighborLine : String := "\n\nNeighboring files:\n"

/-- The text between the commit-history block and the diff. -/
def diffLine : String := "\n\nCode diff:\n"

/-- The commit-history block: empty for no commit, and otherwise the sentence
with the number of commits in decimal, the commits one per line, and a blank
line. -/
def historyBlock (lastCommits : List String) : String :=
  if lastCommits = [] then ""
  else "These are the last " ++ Nat.repr lastCommits.length
    ++ " commit messages, if your proposed commit message is related to them, please make sure the commit message is consistent:\n"
    ++ "\n".intercalate lastCommits ++ "\n\n"

/-- The whole user prompt, section by section. -/
def expectedPrompt (c diff : String) (files lastCommits : List String) : String :=
  promptHeader ++ contextSlot c ++ chooseLine ++ catalogJSON ++ neighborLine
    ++ ", ".intercalate files ++ "\n\n" ++ historyBlock lastCommits ++ diffLine ++ diff

/-- The text `sub` occurs somewhere in `s`. -/
def contains (s sub : String) : Prop := sub.data <:+: s.data

instance (s sub : String) : Decidable (contains s sub) :=
  inferInstanceAs (Decidable (sub.data <:+: s.data))


/-- The request `AnalyzeChanges` hands to the provider: the caller's context,
the model selected by name with the four safety settings and the system prompt
as system instruction, and the user prompt as the only part. -/
def sentRequest (g : GeminiService) (ctx : Context) (diff c : String)
    (rf : List (String × String)) (name : String) (lastCommits : List String) : Request :=
  ⟨ctx, ⟨name, safetySettings, some ⟨[.text g.systemPrompt]⟩⟩,
    [.text (expectedPrompt c diff (flattenRelatedFiles rf) lastCommits)]⟩

/-- Whether the text `q` occurs in `s`, by trying every position; the
computable form of `contains`. -/
def occursIn (q : List Char) : List Char → Bool
  | [] => q.isEmpty
  | c :: s => q.isPrefixOf (c :: s) || occursIn q s

/-! ## A reader for JSON objects with string members

The grammar of RFC 8259 restricted to objects whose values are strings: what it
accepts is a JSON object. -/

/-- JSON insignificant whitespace. -/
def jsonWhitespace (c : Char) : Bool :=
  c = ' ' || c = '\n' || c = '\r' || c = '\t'

/-- Drops leading whitespace. -/
def skipWhitespace : List Char → List Char
  | [] => []
  | c :: rest => if jsonWhitespace c then skipWhitespace rest else c :: rest

/-- The value of a hexadecimal digit. -/
def hexValue (c : Char) : Option Nat :=
  if 48 ≤ c.toNat ∧ c.toNat ≤ 57 then some (c.toNat - 48)
  else if 97 ≤ c.toNat ∧ c.toNat ≤ 102 then some (c.toNat - 87)
  else if 65 ≤ c.toNat ∧ c.toNat ≤ 70 then some (c.toNat - 55)
  else none

/-- The character a two-character escape stands for. -/
def unescapeChar (e : Char) : Option Char :=
  if e = '"' then some '"'
  else if e = '\\' then some '\\'
  else if e = '/' then some '/'
  else if e = 'b' then some (Char.ofNat 8)
  else if e = 'f' then some (Char.ofNat 12)
  else if e = 'n' then some '\n'
  else if e = 'r' then some '\r'
  else if e = 't' then some '\t'
  else none

/-- Reads a JSON string from just after its opening quote: the characters it
denotes and the text after its closing quote.  Control characters must be
escaped, a backslash must start one of the escapes of the grammar. -/
def readString : List Char → Option (List Char × List Char)
  | [] => none
  | [c] => if c = '"' then some ([], []) else none
  | c :: e :: rest =>
    if c = '"' then some ([], e :: rest)
    else if c = '\\' then
      if e = 'u' then
        match rest with
        | h1 :: h2 :: h3 :: h4 :: rest2 =>
          match hexValue h1, hexValue h2, hexValue h3, hexValue h4, readString rest2 with
          | some a, some b, some c2, some d, some (s, r) =>
            some (Char.ofNat (((a * 16 + b) * 16 + c2) * 16 + d) :: s, r)
          | _, _, _, _, _ => none
        | _ => none
      else
        match unescapeChar e, readString rest with
        | some ch, some (s, r) => some (ch :: s, r)
        | _, _ => none
    else if c.toNat < 32 then none
    else
      match readString (e :: rest) with
      | some (s, r) => some (c :: s, r)
      | none => none

/-- Reads the members of an object up to and including the closing brace: each
member is a string, a colon and a string, members are separated by commas. -/
def readMembers : Nat → List Char → Option (List (String × String) × List Char)
  | 0, _ => none
  | fuel + 1, s =>
    match skipWhitespace s with
    | [] => none
    | q1 :: s1 =>
      if q1 ≠ '"' then none
      else
        match readString s1 with
        | none => none
        | some (k, s2) =>
          match skipWhitespace s2 with
          | [] => none
          | colon :: s3 =>
            if colon ≠ ':' then none
            else
              match skipWhitespace s3 with
              | [] => none
              | q2 :: s4 =>
                if q2 ≠ '"' then none
                else
                  match readString s4 with
                  | none => none
                  | some (v, s5) =>
                    match skipWhitespace s5 with
                    | [] => none
                    | sep :: s6 =>
                      if sep = '}' then some ([(⟨k⟩, ⟨v⟩)], s6)
                      else if sep = ',' then
                        match readMembers fuel s6 with
                        | none => none
                        | some (ms, r) => some ((⟨k⟩, ⟨v⟩) :: ms, r)
                      else none

/-- Reads a whole text as one JSON object with string members; `none` when the
text is not such an object. -/
def readObject (s : List Char) : Option (List (String × String)) :=
  match skipWhitespace s with
  | [] => none
  | open1 :: s1 =>
    if open1 ≠ '{' then none
    else
      match skipWhitespace s1 with
      | [] => none
      | c :: s2 =>
        if c = '}' then (if skipWhitespace s2 = [] then some [] else none)
        else
          match readMembers s1.length s1 with
          | none => none
          | some (ms, r) => if skipWhitespace r = [] then some ms else none

/-- The strict order on map entries by key: the key of `a` is byte-wise below
the key of `b`. -/
def keyLT (a b : String × String) : Prop := keyLE a b ∧ a.1 ≠ b.1

/-- The flattened form of one map entry as the specification words it: the
directory, a slash, the file name. -/
def dirSlashFile (e : String × String) : String := e.1 ++ "/" ++ e.2

/-- A provider response on which the indexing `Candidates[0].Content.Parts[0]`
succeeds: there is a first candidate, its content is not nil, and the content
has a first part. -/
def indexable (resp : GenerateContentResponse) : Bool :=
  match resp.Candidates with
  | [] => false
  | candidate :: _ =>
    match candidate.Content with
    | none => false
    | some content => !content.Parts.isEmpty

/-! ## The constructor and its package-level variables -/

/-- The package-level state behind `NewGeminiService`: the `GeminiService`
objects allocated so far (a pointer to one is its position in the list), the
variable `geminiService` (`none` is nil) and the done flag of `geminiOnce`. -/
structure Globals where
  objects : List GeminiService
  geminiService : Option Nat
  geminiOnce : Bool
  deriving DecidableEq, Repr

/-- The package-level state at process start: nothing allocated, a nil pointer,
a fresh `sync.Once`. -/
def processStart : Globals := ⟨[], none, false⟩

/-- The function literal handed to `geminiOnce.Do`: it allocates a service
holding the system prompt and stores its address in `geminiService`. -/
def constructService (w : Globals) : Globals :=
  ⟨w.objects ++ [⟨systemPromptText⟩], some w.objects.length, w.geminiOnce⟩

/-- Go `sync.Once.Do` in a sequential run: the function runs only while the
done flag is unset, and the flag is set once it has run. -/
def onceDo (f : Globals → Globals) (w : Globals) : Globals :=
  if w.geminiOnce then w
  else ⟨(f w).objects, (f w).geminiService, true⟩

/-- The function `NewGeminiService`: the state it leaves and the pointer it
returns, which is the value of `geminiService` after `Do`. -/
def NewGeminiService (w : Globals) : Globals × Option Nat :=
  ((onceDo constructService w), (onceDo constructService w).geminiService)

/-- A sequence of `n` calls of `NewGeminiService` one after the other: the
final state and the pointers returned, in call order. -/
def callsOfNewGeminiService : Nat → Globals → Globals × List (Option Nat)
  | 0, w => (w, [])
  | n + 1, w =>
    ((callsOfNewGeminiService n (NewGeminiService w).1).1,
      (NewGeminiService w).2 :: (callsOfNewGeminiService n (NewGeminiService w).1).2)

/-- The service a pointer refers to. -/
def deref (w : Globals) (p : Option Nat) : Option GeminiService :=
  match p with
  | none => none
  | some a => w.objects[a]?

/-! ## Lemmas on the library fragment -/

theorem sprintfChars_lit (lit rest : List Char) (args : List Arg) (h : ∀ c ∈ lit, c ≠ '%') :
    sprintfChars (lit ++ rest) args = lit ++ sprintfChars rest args := by
  induction lit with
  | nil => rfl
  | cons c lit ih =>
    have hc : c ≠ '%' := h c (List.mem_cons_self _ _)
    have ih2 := ih (fun d hd => h d (List.mem_cons_of_mem _ hd))
    cases hl : lit ++ rest with
    | nil =>
      have h1 : lit = [] := (List.append_eq_nil.mp hl).1
      have h2 : rest = [] := (List.append_eq_nil.mp hl).2
      subst h1 h2
      simp [sprintfChars, hc]
    | cons v tl =>
      rw [List.cons_append, hl]
      simp only [sprintfChars, if_neg hc]
      rw [← hl, ih2]
      rfl

theorem sprintfChars_s (rest : List Char) (s : String) (args : List Arg) :
    sprintfChars ('%' :: 's' :: rest) (.str s :: args) = s.data ++ sprintfChars rest args := by
  simp [sprintfChars, formatVerb]

theorem sprintfChars_d (rest : List Char) (n : Int) (args : List Arg) :
    sprintfChars ('%' :: 'd' :: rest) (.int n :: args) = fmtInteger n ++ sprintfChars rest args := by
  simp [sprintfChars, formatVerb]

theorem sprintfChars_nil : sprintfChars [] [] = [] := by
  simp [sprintfChars, extraReport]

theorem digitChar_eq (d : Nat) (h : d < 10) : digitChar d = Nat.digitChar d := by
  interval_cases d <;> rfl

theorem fmtDigits_eq_toDigitsCore (fuel : Nat) :
    ∀ (u fuel2 : Nat) (acc : List Char), u ≤ fuel → u < fuel2 →
      fmtDigits fuel u acc = Nat.toDigitsCore 10 fuel2 u acc := by
  induction fuel with
  | zero =>
    intro u fuel2 acc hu hf
    have hu0 : u = 0 := by omega
    subst hu0
    cases fuel2 with
    | zero => omega
    | succ f => simp [fmtDigits, Nat.toDigitsCore, digitChar_eq]
  | succ fuel ih =>
    intro u fuel2 acc hu hf
    cases fuel2 with
    | zero => omega
    | succ f =>
      by_cases h10 : 10 ≤ u
      · have hd : u - u / 10 * 10 = u % 10 := by omega
        have hne : u / 10 ≠ 0 := by omega
        simp only [fmtDigits, Nat.toDigitsCore, if_pos h10, if_neg hne, hd]
        rw [digitChar_eq _ (Nat.mod_lt _ (by decide))]
        exact ih (u / 10) f _ (by omega) (by omega)
      · have hz : u / 10 = 0 := by omega
        have hm : u % 10 = u := by omega
        simp only [fmtDigits, Nat.toDigitsCore, if_neg h10, hz, hm, if_true]
        rw [digitChar_eq _ (by omega)]

theorem fmtInteger_natCast (n : Nat) : fmtInteger (n : Int) = (Nat.repr n).data := by
  have h : ¬ ((n : Int) < 0) := by omega
  simp only [fmtInteger, if_neg h, Int.natAbs_ofNat]
  exact fmtDigits_eq_toDigitsCore n n (n + 1) [] (Nat.le_refl _) (Nat.lt_succ_self _)

theorem intercalate_go_eq_foldl (sep : String) (es : List String) :
    ∀ acc : String, String.intercalate.go acc sep es = es.foldl (fun b s => b ++ sep ++ s) acc := by
  induction es with
  | nil => intro acc; rfl
  | cons e es ih => intro acc; simp only [String.intercalate.go, List.foldl_cons]; exact ih _

theorem stringsJoin_eq_intercalate (l : List String) (sep : String) :
    stringsJoin l sep = sep.intercalate l := by
  cases l with
  | nil => rfl
  | cons e es =>
    cases es with
    | nil => rfl
    | cons e2 es => simp only [stringsJoin, String.intercalate, intercalate_go_eq_foldl]

set_option maxRecDepth 100000 in
theorem jsonMarshal_conventionalTypes : jsonMarshal conventionalTypesMap = .ok catalogJSON := by
  have h : ('{' :: (jsonMembers (conventionalTypesMap.insertionSort keyLE) ++ ['}']))
      = catalogJSON.data := by decide
  unfold jsonMarshal
  rw [h]

theorem Sprintf_contextFormat (c : String) :
    Sprintf contextFormat [.str c] = intentLead ++ c := by
  apply String.ext
  have hf : contextFormat.data = intentLead.data ++ '%' :: 's' :: [] := by decide
  simp only [Sprintf, String.data_append, hf]
  rw [sprintfChars_lit _ _ _ (by decide), sprintfChars_s, sprintfChars_nil, List.append_nil]

set_option maxRecDepth 100000 in
theorem Sprintf_lastCommitFormat (n : Nat) (joined : String) :
    Sprintf lastCommitFormat [.int n, .str joined]
      = "These are the last " ++ Nat.repr n
        ++ " commit messages, if your proposed commit message is related to them, please make sure the commit message is consistent:\n"
        ++ joined ++ "\n\n" := by
  apply String.ext
  have hf : lastCommitFormat.data = "These are the last ".data ++ '%' :: 'd' ::
      (" commit messages, if your proposed commit message is related to them, please make sure the commit message is consistent:\n".data
        ++ '%' :: 's' :: ("\n\n".data ++ [])) := by decide
  simp only [Sprintf, String.data_append, hf]
  rw [sprintfChars_lit _ _ _ (by decide), sprintfChars_d, sprintfChars_lit _ _ _ (by decide),
    sprintfChars_s, sprintfChars_lit _ _ _ (by decide), sprintfChars_nil, fmtInteger_natCast]
  simp only [List.append_nil, List.append_assoc]

set_option maxRecDepth 100000 in
theorem Sprintf_promptFormat (a b c d e : String) :
    Sprintf promptFormat [.str a, .str b, .str c, .str d, .str e]
      = promptHeader ++ a ++ chooseLine ++ b ++ neighborLine ++ c ++ "\n\n" ++ d ++ diffLine ++ e := by
  apply String.ext
  have hf : promptFormat.data = promptHeader.data ++ '%' :: 's' :: (chooseLine.data ++ '%' :: 's' ::
      (neighborLine.data ++ '%' :: 's' :: ("\n\n".data ++ '%' :: 's' :: (diffLine.data ++ '%' :: 's' :: []))))
      := by decide
  simp only [Sprintf, String.data_append, hf]
  rw [sprintfChars_lit _ _ _ (by decide), sprintfChars_s, sprintfChars_lit _ _ _ (by decide),
    sprintfChars_s, sprintfChars_lit _ _ _ (by decide), sprintfChars_s,
    sprintfChars_lit _ _ _ (by decide), sprintfChars_s, sprintfChars_lit _ _ _ (by decide),
    sprintfChars_s, sprintfChars_nil]
  simp only [List.append_nil, List.append_assoc]

/-- The call on a non-nil context, in closed form: it returns the prompt of the
specification with a nil error, leaves the caller's cell as it was and prints
nothing. -/
theorem GetUserPrompt_some (g : GeminiService) (c diff : String) (files lastCommits : List String) :
    GetUserPrompt g (some c) diff files lastCommits
      = ⟨.returned (expectedPrompt c diff files lastCommits) none, some c, []⟩ := by
  unfold GetUserPrompt
  simp only [jsonMarshal_conventionalTypes, Sprintf_promptFormat, Sprintf_contextFormat,
    Sprintf_lastCommitFormat, stringsJoin_eq_intercalate, expectedPrompt, contextSlot, historyBlock]
  by_cases hc : c = "" <;> by_cases hl : lastCommits = [] <;> simp [hc, hl, List.length_pos]


theorem occursIn_iff (q s : List Char) : occursIn q s = true ↔ q <:+: s := by
  induction s with
  | nil =>
    cases q <;> simp [occursIn]
  | cons c s ih =>
    rw [occursIn, Bool.or_eq_true, ih, List.infix_cons_iff, List.isPrefixOf_iff_prefix]

theorem not_infix_of_occursIn {q s : List Char} (h : occursIn q s = false) : ¬ q <:+: s := by
  rw [← occursIn_iff, h]
  exact Bool.false_ne_true

theorem infix_of_infix_append_sep {q a b : List Char} {x : Char} (hx : x ∉ q)
    (h : q <:+: a ++ x :: b) : q <:+: a ∨ q <:+: b := by
  obtain ⟨s, t, hst⟩ := h
  rcases List.append_eq_append_iff.mp hst with ⟨a2, ha, _⟩ | ⟨c2, hc, hb⟩
  · exact Or.inl ⟨s, a2, ha.symm⟩
  · cases c2 with
    | nil => exact Or.inl ⟨s, [], by simpa using hc⟩
    | cons y c3 =>
      simp only [List.cons_append, List.cons.injEq] at hb
      obtain ⟨hxy, hb⟩ := hb
      subst hxy
      rcases List.append_eq_append_iff.mp hc with ⟨a3, _, hq⟩ | ⟨d, _, hd⟩
      · exact absurd (by rw [hq]; simp) hx
      · cases d with
        | nil =>
          simp only [List.nil_append] at hd
          exact absurd (by rw [← hd]; simp) hx
        | cons z d2 =>
          simp only [List.cons_append, List.cons.injEq] at hd
          exact Or.inr ⟨d2, t, by rw [hb, hd.2]⟩

theorem infix_of_infix_lit_append {q lit r : List Char} {x : Char}
    (hlast : lit.getLast? = some x) (hx : x ∉ q) (hq : ¬ q <:+: lit)
    (h : q <:+: lit ++ r) : q <:+: r := by
  obtain ⟨l2, hl⟩ := List.getLast?_eq_some_iff.mp hlast
  subst hl
  rw [List.append_assoc, List.singleton_append] at h
  rcases infix_of_infix_append_sep hx h with h1 | h1
  · exact absurd (h1.trans (List.infix_append' [] l2 [x])) hq
  · exact h1

theorem infix_of_infix_append_lit_append {q a lit b : List Char} {x : Char}
    (hhead : lit.head? = some x) (hlast : lit.getLast? = some x) (hx : x ∉ q)
    (hq : ¬ q <:+: lit) (h : q <:+: a ++ (lit ++ b)) : q <:+: a ∨ q <:+: b := by
  cases lit with
  | nil => simp at hhead
  | cons y l2 =>
    simp only [List.head?_cons, Option.some.injEq] at hhead
    subst hhead
    rw [List.cons_append] at h
    rcases infix_of_infix_append_sep hx h with h1 | h1
    · exact Or.inl h1
    · cases l2 with
      | nil => exact Or.inr h1
      | cons z l3 =>
        have hlast2 : (z :: l3).getLast? = some y := by
          simpa [List.getLast?_cons_cons] using hlast
        refine Or.inr (infix_of_infix_lit_append hlast2 hx ?_ h1)
        exact fun hc => hq (hc.trans (List.infix_cons (List.infix_refl _)))

theorem foldl_join_append (sep : String) (es : List String) :
    ∀ x acc : String, es.foldl (fun b s => b ++ sep ++ s) (x ++ acc)
      = x ++ es.foldl (fun b s => b ++ sep ++ s) acc := by
  induction es with
  | nil => intro x acc; rfl
  | cons e es ih =>
    intro x acc
    simp only [List.foldl_cons]
    have hassoc : x ++ acc ++ sep ++ e = x ++ (acc ++ sep ++ e) := by
      simp only [String.append_assoc]
    rw [hassoc]
    exact ih x _

theorem stringsJoin_cons (e : String) (es : List String) (sep : String) :
    stringsJoin (e :: es) sep = es.foldl (fun b s => b ++ sep ++ s) e := by
  cases es <;> rfl

theorem stringsJoin_cons_cons (a b : String) (rest : List String) (sep : String) :
    stringsJoin (a :: b :: rest) sep = a ++ (sep ++ stringsJoin (b :: rest) sep) := by
  rw [stringsJoin_cons, stringsJoin_cons, List.foldl_cons, foldl_join_append,
    String.append_assoc]

theorem not_infix_join {q : List Char} (hne : q ≠ []) (hcomma : ',' ∉ q)
    (hsp : q.head? ≠ some ' ') (files : List String) (hf : ∀ f ∈ files, ¬ q <:+: f.data) :
    ¬ q <:+: (stringsJoin files ", ").data := by
  induction files with
  | nil =>
    intro h
    exact hne (List.eq_nil_of_infix_nil h)
  | cons a rest ih =>
    cases rest with
    | nil => exact hf a (List.mem_cons_self _ _)
    | cons b rest =>
      intro h
      rw [stringsJoin_cons_cons] at h
      have hsep : (", " : String).data = [',', ' '] := rfl
      simp only [String.data_append, hsep, List.cons_append, List.nil_append] at h
      rcases infix_of_infix_append_sep hcomma h with h1 | h1
      · exact hf a (List.mem_cons_self _ _) h1
      · rcases List.infix_cons_iff.mp h1 with h2 | h2
        · cases q with
          | nil => exact hne rfl
          | cons y t =>
            have := List.cons_prefix_cons.mp h2
            exact hsp (by rw [this.1]; rfl)
        · exact ih (fun f hfm => hf f (List.mem_cons_of_mem _ hfm)) h2

theorem not_infix_contextSlot {q : List Char} (hne : q ≠ []) (hcolon : ':' ∉ q)
    (hsp : q.head? ≠ some ' ') (hlit : ¬ q <:+: intentLead.data) (c : String)
    (hc : ¬ q <:+: c.data) : ¬ q <:+: (contextSlot c).data := by
  unfold contextSlot
  by_cases h0 : c = ""
  · rw [if_pos h0]
    intro h
    exact hne (List.eq_nil_of_infix_nil h)
  · rw [if_neg h0]
    intro h
    obtain ⟨lead, hl⟩ : ∃ lead, intentLead.data = lead ++ ':' :: [' '] :=
      ⟨"Use the following context to understand intent".data, by decide⟩
    rw [String.data_append, hl, List.append_assoc, List.cons_append, List.cons_append,
      List.nil_append] at h
    rcases infix_of_infix_append_sep hcolon h with h1 | h1
    · exact hlit (hl ▸ h1.trans (List.infix_append' [] _ _))
    · rcases List.infix_cons_iff.mp h1 with h2 | h2
      · cases q with
        | nil => exact hne rfl
        | cons y t =>
          have := List.cons_prefix_cons.mp h2
          exact hsp (by rw [this.1]; rfl)
      · exact hc h2

set_option maxRecDepth 100000 in
/-- A text without line break, colon or comma, which does not start with a
space and occurs in none of the fixed parts of the prompt, occurs in a prompt
with no commit history only if it occurs in the context, in a file name or in
the diff. -/
theorem not_infix_expectedPrompt {q : List Char} (hne : q ≠ []) (hnl : '\n' ∉ q)
    (hcolon : ':' ∉ q) (hcomma : ',' ∉ q) (hsp : q.head? ≠ some ' ')
    (hhead : ¬ q <:+: promptHeader.data) (hlead : ¬ q <:+: intentLead.data)
    (hmid : ¬ q <:+: (chooseLine ++ catalogJSON ++ neighborLine).data)
    (hend : ¬ q <:+: ("\n\n" ++ diffLine).data)
    (c diff : String) (files : List String)
    (hc : ¬ q <:+: c.data) (hd : ¬ q <:+: diff.data) (hf : ∀ f ∈ files, ¬ q <:+: f.data) :
    ¬ q <:+: (expectedPrompt c diff files []).data := by
  intro h
  have hP : (expectedPrompt c diff files []).data
      = promptHeader.data ++ ((contextSlot c).data ++ ((chooseLine ++ catalogJSON ++ neighborLine).data
          ++ ((stringsJoin files ", ").data ++ (("\n\n" ++ diffLine).data ++ diff.data)))) := by
    simp [expectedPrompt, historyBlock, stringsJoin_eq_intercalate, String.data_append]
  rw [hP] at h
  have h1 := infix_of_infix_lit_append (x := '\n') (by decide) hnl hhead h
  rcases infix_of_infix_append_lit_append (x := '\n') (by decide) (by decide) hnl hmid h1 with h2 | h2
  · exact not_infix_contextSlot hne hcolon hsp hlead c hc h2
  · rcases infix_of_infix_append_lit_append (x := '\n') (by decide) (by decide) hnl hend h2 with h3 | h3
    · exact not_infix_join hne hcomma hsp files hf h3
    · exact hd h3


/-! ## The generation call -/

/-- The run of `AnalyzeChanges` on non-nil pointers when the provider answers
the request with an error. -/
theorem AnalyzeChanges_of_error (g : GeminiService) (client : Client) (ctx : Context)
    (diff c : String) (rf : List (String × String)) (name : String) (lastCommits : List String)
    (err : GoError) (h : client (sentRequest g ctx diff c rf name lastCommits) = .error err) :
    AnalyzeChanges (some g) client ctx diff (some c) (some rf) (some name) lastCommits
      = ⟨.returned "" none, ["Error: " ++ err.Error ++ "\n"],
          [sentRequest g ctx diff c rf name lastCommits], some c⟩ := by
  unfold sentRequest at h
  simp only [AnalyzeChanges, GetUserPrompt_some, h, sentRequest, List.nil_append]

/-- The run of `AnalyzeChanges` on non-nil pointers when the provider answers
the request with a response. -/
theorem AnalyzeChanges_of_response (g : GeminiService) (client : Client) (ctx : Context)
    (diff c : String) (rf : List (String × String)) (name : String) (lastCommits : List String)
    (resp : GenerateContentResponse)
    (h : client (sentRequest g ctx diff c rf name lastCommits) = .ok resp) :
    (AnalyzeChanges (some g) client ctx diff (some c) (some rf) (some name) lastCommits).outcome
      = match resp.Candidates with
        | [] => .panicked indexOutOfRange
        | candidate :: _ =>
          match candidate.Content with
          | none => .panicked nilDereference
          | some content =>
            match content.Parts with
            | [] => .panicked indexOutOfRange
            | part :: _ => .returned (Sprintf "%v" [.part part]) none := by
  unfold sentRequest at h
  simp only [AnalyzeChanges, GetUserPrompt_some, h]
  rcases resp with ⟨cands⟩
  cases cands with
  | nil => rfl
  | cons cand rest =>
    rcases cand with ⟨content⟩
    cases content with
    | none => rfl
    | some content =>
      rcases content with ⟨parts⟩
      cases parts <;> rfl

/-! ## The claims -/

/-- C1: on a non-nil context holding `c`, `GetUserPrompt` returns a nil error
and exactly header, context slot, the line introducing the catalog, the catalog
JSON, the line introducing the files, the files joined with a comma and a
space, a blank line, the commit-history block, the line introducing the diff,
and the diff. -/
theorem GetUserPrompt_returns_expectedPrompt (g : GeminiService) (c diff : String)
    (files lastCommits : List String) :
    (GetUserPrompt g (some c) diff files lastCommits).outcome
      = .returned
          (promptHeader ++ contextSlot c
            ++ "\n\nChoose a type from the type-to-description JSON below that best describes the git diff:\n"
            ++ catalogJSON ++ "\n\nNeighboring files:\n" ++ ", ".intercalate files ++ "\n\n"
            ++ historyBlock lastCommits ++ "\n\nCode diff:\n" ++ diff)
          none := by
  rw [GetUserPrompt_some]
  rfl

/-- C2, at the failing inputs: when the provider answers with no candidate, or
with a first candidate that has no content part, `AnalyzeChanges` panics with
an index out of range; it returns no error value. -/
theorem AnalyzeChanges_empty_response_panics (g : GeminiService) (ctx : Context)
    (diff c : String) (rf : List (String × String)) (name : String) (lastCommits : List String) :
    (AnalyzeChanges (some g) (fun _ => .ok ⟨[]⟩) ctx diff (some c) (some rf) (some name)
        lastCommits).outcome = .panicked indexOutOfRange
    ∧ (AnalyzeChanges (some g) (fun _ => .ok ⟨[⟨some ⟨[]⟩⟩]⟩) ctx diff (some c) (some rf) (some name)
        lastCommits).outcome = .panicked indexOutOfRange := by
  constructor
  · rw [AnalyzeChanges_of_response g _ ctx diff c rf name lastCommits ⟨[]⟩ rfl]
  · rw [AnalyzeChanges_of_response g _ ctx diff c rf name lastCommits ⟨[⟨some ⟨[]⟩⟩]⟩ rfl]

/-- C3: when the provider answers the generation call with an error,
`AnalyzeChanges` returns the empty string and a nil error. -/
theorem AnalyzeChanges_provider_error (g : GeminiService) (client : Client) (ctx : Context)
    (diff c : String) (rf : List (String × String)) (name : String) (lastCommits : List String)
    (err : GoError) (h : client (sentRequest g ctx diff c rf name lastCommits) = .error err) :
    (AnalyzeChanges (some g) client ctx diff (some c) (some rf) (some name) lastCommits).outcome
      = .returned "" none := by
  rw [AnalyzeChanges_of_error g client ctx diff c rf name lastCommits err h]

/-- Witness of C3: a provider that refuses every request with a quota error. -/
theorem AnalyzeChanges_provider_error_witness :
    (AnalyzeChanges (some ⟨systemPromptText⟩) (fun _ => .error (.provider "quota exceeded")) ⟨none⟩
        "+ line" (some "") (some [("cmd", "main.go")]) (some "gemini-1.5-flash")
        ["feat: add login"]).outcome = .returned "" none :=
  AnalyzeChanges_provider_error ⟨systemPromptText⟩ (fun _ => .error (.provider "quota exceeded"))
    ⟨none⟩ "+ line" "" [("cmd", "main.go")] "gemini-1.5-flash" ["feat: add login"]
    (.provider "quota exceeded") rfl

/-- C4 fails on the code: with a cancelled context and a provider that answers
it with the cancellation error, `AnalyzeChanges` returns the empty string with a
nil error, so no error of any kind reaches the caller. -/
theorem AnalyzeChanges_cancelled_returns_no_error :
    (AnalyzeChanges (some ⟨systemPromptText⟩)
        (fun req => match req.ctx.err with
          | some e => .error e
          | none => .ok ⟨[⟨some ⟨[.text "feat: add login"]⟩⟩]⟩)
        ⟨some .contextCanceled⟩ "+ line" (some "") (some []) (some "gemini-1.5-flash")
        []).outcome = .returned "" none
    ∧ ¬ ∃ (v : String) (e : GoError), e.isCancellation = true ∧
      (AnalyzeChanges (some ⟨systemPromptText⟩)
        (fun req => match req.ctx.err with
          | some e => .error e
          | none => .ok ⟨[⟨some ⟨[.text "feat: add login"]⟩⟩]⟩)
        ⟨some .contextCanceled⟩ "+ line" (some "") (some []) (some "gemini-1.5-flash")
        []).outcome = .returned v (some e) := by
  have h := AnalyzeChanges_of_error ⟨systemPromptText⟩
    (fun req => match req.ctx.err with
      | some e => .error e
      | none => .ok ⟨[⟨some ⟨[.text "feat: add login"]⟩⟩]⟩)
    ⟨some .contextCanceled⟩ "+ line" "" [] "gemini-1.5-flash" [] .contextCanceled rfl
  rw [h]
  refine ⟨rfl, ?_⟩
  rintro ⟨v, e, _, he⟩
  cases he

/-- C4 as amended: with a cancelled context whose cancellation error the
provider call fails with, `AnalyzeChanges` makes that one call, prints the
error on one line and returns the empty string with a nil error. -/
theorem AnalyzeChanges_cancelled_swallowed (g : GeminiService) (client : Client) (ctx : Context)
    (diff c : String) (rf : List (String × String)) (name : String) (lastCommits : List String)
    (e : GoError) (_hctx : ctx.err = some e) (_hkind : e.isCancellation = true)
    (h : client (sentRequest g ctx diff c rf name lastCommits) = .error e) :
    (AnalyzeChanges (some g) client ctx diff (some c) (some rf) (some name) lastCommits).outcome
        = .returned "" none
    ∧ (AnalyzeChanges (some g) client ctx diff (some c) (some rf) (some name) lastCommits).stdout
        = ["Error: " ++ e.Error ++ "\n"]
    ∧ (AnalyzeChanges (some g) client ctx diff (some c) (some rf) (some name) lastCommits).calls
        = [sentRequest g ctx diff c rf name lastCommits] := by
  rw [AnalyzeChanges_of_error g client ctx diff c rf name lastCommits e h]
  exact ⟨rfl, rfl, rfl⟩

/-- Witness of the amended C4: a context past its deadline and a provider that
answers a dead context with the context's error. -/
theorem AnalyzeChanges_cancelled_swallowed_witness :
    (AnalyzeChanges (some ⟨systemPromptText⟩)
        (fun req => match req.ctx.err with
          | some e => .error e
          | none => .ok ⟨[]⟩)
        ⟨some .deadlineExceeded⟩ "+ line" (some "fix login bug") (some [("cmd", "main.go")])
        (some "gemini-1.5-flash") []).stdout = ["Error: context deadline exceeded\n"] :=
  (AnalyzeChanges_cancelled_swallowed ⟨systemPromptText⟩
    (fun req => match req.ctx.err with
      | some e => .error e
      | none => .ok ⟨[]⟩)
    ⟨some .deadlineExceeded⟩ "+ line" "fix login bug" [("cmd", "main.go")] "gemini-1.5-flash" []
    .deadlineExceeded rfl rfl rfl).2.1


/-- C5: the prompt is the header ending in the format line and one blank line,
then the context slot, then the blank line and the line starting `Choose a
type`; the slot is the intent line for a non-empty context and empty for the
empty one, and the context `fix login bug` gives a prompt containing its intent
line. -/
theorem context_slot_of_prompt (g : GeminiService) (c diff : String)
    (files lastCommits : List String) :
    (∃ rest : String, (GetUserPrompt g (some c) diff files lastCommits).outcome
      = .returned
          ("Generate a concise git commit message written in past tense for the following code diff with the given specifications below:\n\nThe output response must be in format:\n<type>(<optional scope>): <commit message>\n\n"
            ++ (if c = "" then "" else "Use the following context to understand intent: " ++ c)
            ++ "\n\nChoose a type from the type-to-description JSON below" ++ rest)
          none)
    ∧ ∃ p : String, (GetUserPrompt g (some "fix login bug") diff files lastCommits).outcome
        = .returned p none
      ∧ contains p "Use the following context to understand intent: fix login bug" := by
  constructor
  · refine ⟨" that best describes the git diff:\n" ++ catalogJSON ++ neighborLine
      ++ ", ".intercalate files ++ "\n\n" ++ historyBlock lastCommits ++ diffLine ++ diff, ?_⟩
    rw [GetUserPrompt_some]
    have hsplit : chooseLine = "\n\nChoose a type from the type-to-description JSON below"
        ++ " that best describes the git diff:\n" := by decide
    simp only [expectedPrompt, hsplit, String.append_assoc]
    rfl
  · refine ⟨_, by rw [GetUserPrompt_some], ?_⟩
    refine ⟨promptHeader.data, (chooseLine ++ catalogJSON ++ neighborLine
      ++ ", ".intercalate files ++ "\n\n" ++ historyBlock lastCommits ++ diffLine ++ diff).data, ?_⟩
    have hslot : contextSlot "fix login bug"
        = "Use the following context to understand intent: fix login bug" := by decide
    simp only [expectedPrompt, hslot, String.data_append, List.append_assoc]

/-- C6: for a non-empty list of commits the prompt contains the sentence with
their number in decimal, then the commits joined by line breaks, then a blank
line. -/
theorem history_block_in_prompt (g : GeminiService) (c diff : String)
    (files lastCommits : List String) (h : lastCommits ≠ []) :
    ∃ p : String, (GetUserPrompt g (some c) diff files lastCommits).outcome = .returned p none
      ∧ contains p ("These are the last " ++ Nat.repr lastCommits.length
          ++ " commit messages, if your proposed commit message is related to them, please make sure the commit message is consistent:\n"
          ++ "\n".intercalate lastCommits ++ "\n\n") := by
  refine ⟨_, by rw [GetUserPrompt_some], ?_⟩
  refine ⟨(promptHeader ++ contextSlot c ++ chooseLine ++ catalogJSON ++ neighborLine
      ++ ", ".intercalate files ++ "\n\n").data, (diffLine ++ diff).data, ?_⟩
  simp only [expectedPrompt, historyBlock, if_neg h, String.data_append, List.append_assoc]

/-- Witness of C6: two commits give `last 2 commit messages` and both messages
on their own lines before the blank line. -/
theorem history_block_in_prompt_witness :
    ∃ p : String, (GetUserPrompt ⟨systemPromptText⟩ (some "") "" []
        ["feat: add login", "fix: typo"]).outcome = .returned p none
      ∧ contains p "These are the last 2 commit messages, if your proposed commit message is related to them, please make sure the commit message is consistent:\nfeat: add login\nfix: typo\n\n" :=
  history_block_in_prompt ⟨systemPromptText⟩ "" "" [] ["feat: add login", "fix: typo"] (by decide)

/-- C7 fails on the code: the context `These are the last` does not contain the
text `commit messages`, and with no commit the prompt contains `These are the
last`. -/
theorem history_words_from_context :
    ¬ contains "These are the last" "commit messages"
    ∧ ¬ contains "" "commit messages"
    ∧ ∃ p : String, (GetUserPrompt ⟨systemPromptText⟩ (some "These are the last") "" []
        []).outcome = .returned p none
      ∧ contains p "These are the last" := by
  refine ⟨by decide, by decide, _, by rw [GetUserPrompt_some], ?_⟩
  refine ⟨(promptHeader ++ intentLead).data, (chooseLine ++ catalogJSON ++ neighborLine
      ++ ", ".intercalate [] ++ "\n\n" ++ historyBlock [] ++ diffLine ++ "").data, ?_⟩
  have hslot : contextSlot "These are the last" = intentLead ++ "These are the last" := by decide
  simp only [expectedPrompt, hslot, String.data_append, List.append_assoc]

set_option maxRecDepth 100000 in
/-- C7 as amended: with no commit, and context, diff and file names containing
neither `commit messages` nor `These are the last`, the prompt contains neither
`These are the last` nor `last 0 commit messages`. -/
theorem no_history_block_without_commits (g : GeminiService) (c diff : String)
    (files : List String)
    (hc : ¬ contains c "commit messages") (hd : ¬ contains diff "commit messages")
    (hf : ∀ f ∈ files, ¬ contains f "commit messages")
    (hc2 : ¬ contains c "These are the last") (hd2 : ¬ contains diff "These are the last")
    (hf2 : ∀ f ∈ files, ¬ contains f "These are the last") :
    ∃ p : String, (GetUserPrompt g (some c) diff files []).outcome = .returned p none
      ∧ ¬ contains p "These are the last" ∧ ¬ contains p "last 0 commit messages" := by
  refine ⟨_, by rw [GetUserPrompt_some], ?_, ?_⟩
  · exact not_infix_expectedPrompt (q := "These are the last".data) (by decide) (by decide)
      (by decide) (by decide) (by decide) (not_infix_of_occursIn (by decide))
      (not_infix_of_occursIn (by decide)) (not_infix_of_occursIn (by decide))
      (not_infix_of_occursIn (by decide))
      c diff files hc2 hd2 hf2
  · intro h
    have hsub : "commit messages".data <:+: "last 0 commit messages".data := by decide
    exact not_infix_expectedPrompt (q := "commit messages".data) (by decide) (by decide)
      (by decide) (by decide) (by decide) (not_infix_of_occursIn (by decide))
      (not_infix_of_occursIn (by decide)) (not_infix_of_occursIn (by decide))
      (not_infix_of_occursIn (by decide))
      c diff files hc hd hf (hsub.trans h)

/-- Witness of the amended C7: an ordinary context, diff and file list. -/
theorem no_history_block_without_commits_witness :
    ∃ p : String, (GetUserPrompt ⟨systemPromptText⟩ (some "fix login bug") "+ return nil"
        ["a.go", "b.go"] []).outcome = .returned p none
      ∧ ¬ contains p "These are the last" ∧ ¬ contains p "last 0 commit messages" :=
  no_history_block_without_commits ⟨systemPromptText⟩ "fix login bug" "+ return nil"
    ["a.go", "b.go"] (by decide) (by decide) (by decide) (by decide) (by decide) (by decide)


/-- C8: the prompt contains the line `Neighboring files:` directly followed by
the file names in their order, joined with a comma and a space, and a line
break; the files `a.go` and `b.go` give `a.go, b.go` on that line. -/
theorem neighboring_files_in_prompt (g : GeminiService) (c diff : String)
    (files lastCommits : List String) :
    (∃ p : String, (GetUserPrompt g (some c) diff files lastCommits).outcome = .returned p none
      ∧ contains p ("Neighboring files:\n" ++ ", ".intercalate files ++ "\n"))
    ∧ ∃ p : String, (GetUserPrompt g (some c) diff ["a.go", "b.go"] lastCommits).outcome
        = .returned p none
      ∧ contains p "Neighboring files:\na.go, b.go" := by
  have hgen : ∀ fs : List String,
      contains (expectedPrompt c diff fs lastCommits)
        ("Neighboring files:\n" ++ ", ".intercalate fs ++ "\n") := by
    intro fs
    refine ⟨(promptHeader ++ contextSlot c ++ chooseLine ++ catalogJSON ++ "\n\n").data,
      ("\n" ++ historyBlock lastCommits ++ diffLine ++ diff).data, ?_⟩
    have h1 : neighborLine.data = ("\n\n" : String).data ++ ("Neighboring files:\n" : String).data := by
      decide
    simp only [expectedPrompt, String.data_append, h1, List.append_assoc]
    rfl
  refine ⟨⟨_, by rw [GetUserPrompt_some], hgen files⟩, _, by rw [GetUserPrompt_some], ?_⟩
  have hsub : ("Neighboring files:\na.go, b.go" : String).data
      <:+: ("Neighboring files:\n" ++ ", ".intercalate ["a.go", "b.go"] ++ "\n").data := by
    decide
  exact hsub.trans (hgen ["a.go", "b.go"])

set_option maxRecDepth 100000 in
/-- C9: the catalog text is what `json.Marshal` yields for the source mapping;
it reads as one JSON object with 11 string members, which are the entries of
the source mapping, with keys docs, style, refactor, perf, test, build, ci,
chore, revert, feat and fix, and `fix` mapped to `A bug fix`; and for every
input the prompt carries this same text between the line introducing the
catalog and the line introducing the files. -/
theorem catalog_json_valid_and_complete :
    jsonMarshal conventionalTypesMap = .ok catalogJSON
    ∧ (∃ members : List (String × String), readObject catalogJSON.data = some members
        ∧ members.length = 11
        ∧ members.Perm conventionalTypesMap
        ∧ (members.map Prod.fst).Perm
            ["docs", "style", "refactor", "perf", "test", "build", "ci", "chore", "revert",
              "feat", "fix"]
        ∧ members.lookup "fix" = some "A bug fix")
    ∧ ∀ (g : GeminiService) (c diff : String) (files lastCommits : List String),
        ∃ pre post : String, (GetUserPrompt g (some c) diff files lastCommits).outcome
          = .returned
              (pre ++ "Choose a type from the type-to-description JSON below that best describes the git diff:\n"
                ++ catalogJSON ++ "\n\nNeighboring files:\n" ++ post)
              none := by
  refine ⟨jsonMarshal_conventionalTypes, ?_, ?_⟩
  · have hread : readObject catalogJSON.data = some (conventionalTypesMap.insertionSort keyLE) := by
      decide
    have hperm := List.perm_insertionSort keyLE conventionalTypesMap
    refine ⟨_, hread, ?_, hperm, ?_, ?_⟩
    · rw [List.length_insertionSort]; rfl
    · exact hperm.map Prod.fst
    · decide
  · intro g c diff files lastCommits
    refine ⟨promptHeader ++ contextSlot c ++ "\n\n",
      ", ".intercalate files ++ "\n\n" ++ historyBlock lastCommits ++ diffLine ++ diff, ?_⟩
    rw [GetUserPrompt_some]
    have hsplit : chooseLine = "\n\n"
        ++ "Choose a type from the type-to-description JSON below that best describes the git diff:\n" := by
      decide
    simp only [expectedPrompt, hsplit, String.append_assoc]
    rfl

/-- C10: a call leaves the caller's context cell as it found it, so a second
call through the same reference ends as the first did; on a non-nil reference
holding `c` both return the prompt built from `c`, whose context slot carries
the intent line once. -/
theorem GetUserPrompt_repeatable (g : GeminiService) (context : Option String) (c diff : String)
    (files lastCommits : List String) :
    (GetUserPrompt g context diff files lastCommits).context = context
    ∧ (GetUserPrompt g (GetUserPrompt g context diff files lastCommits).context diff files
        lastCommits).outcome = (GetUserPrompt g context diff files lastCommits).outcome
    ∧ (GetUserPrompt g (GetUserPrompt g (some c) diff files lastCommits).context diff files
        lastCommits).outcome = .returned (expectedPrompt c diff files lastCommits) none := by
  have hcell : (GetUserPrompt g context diff files lastCommits).context = context := by
    cases context with
    | none => rfl
    | some c2 => rw [GetUserPrompt_some]
  refine ⟨hcell, by rw [hcell], ?_⟩
  rw [GetUserPrompt_some]
  simp only
  rw [GetUserPrompt_some]


/-! ## Lemmas on the key order -/

theorem char_eq_of_toNat_eq {a b : Char} (h : a.toNat = b.toNat) : a = b := by
  apply Char.ext
  apply UInt32.ext
  exact h

theorem bytesLE_refl (a : List Char) : bytesLE a a = true := by
  induction a with
  | nil => rfl
  | cons c cs ih => simp [bytesLE, ih]

theorem bytesLE_total (a : List Char) : ∀ b, bytesLE a b = true ∨ bytesLE b a = true := by
  induction a with
  | nil => intro b; exact Or.inl rfl
  | cons c cs ih =>
    intro b
    cases b with
    | nil => exact Or.inr rfl
    | cons d ds =>
      simp only [bytesLE]
      by_cases h1 : c.toNat < d.toNat
      · simp [h1]
      · by_cases h2 : d.toNat < c.toNat
        · simp [h2]
        · simp only [h1, h2, if_false]
          exact ih ds

theorem bytesLE_antisymm (a : List Char) :
    ∀ b, bytesLE a b = true → bytesLE b a = true → a = b := by
  induction a with
  | nil =>
    intro b _ hba
    cases b with
    | nil => rfl
    | cons d ds => simp [bytesLE] at hba
  | cons c cs ih =>
    intro b hab hba
    cases b with
    | nil => simp [bytesLE] at hab
    | cons d ds =>
      simp only [bytesLE] at hab hba
      by_cases h1 : c.toNat < d.toNat
      · have h2 : ¬ d.toNat < c.toNat := by omega
        simp [h1, h2] at hba
      · by_cases h2 : d.toNat < c.toNat
        · simp [h1, h2] at hab
        · simp only [h1, h2, if_false] at hab hba
          have hcd : c = d := char_eq_of_toNat_eq (by omega)
          rw [hcd, ih ds hab hba]

theorem bytesLE_trans (a : List Char) :
    ∀ b c, bytesLE a b = true → bytesLE b c = true → bytesLE a c = true := by
  induction a with
  | nil => intro b c _ _; rfl
  | cons x xs ih =>
    intro b c hab hbc
    cases b with
    | nil => simp [bytesLE] at hab
    | cons y ys =>
      cases c with
      | nil => simp [bytesLE] at hbc
      | cons z zs =>
        simp only [bytesLE] at hab hbc ⊢
        by_cases h1 : x.toNat < y.toNat
        · by_cases h3 : y.toNat < z.toNat
          · have : x.toNat < z.toNat := by omega
            simp [this]
          · by_cases h4 : z.toNat < y.toNat
            · simp [h3, h4] at hbc
            · have : x.toNat < z.toNat := by omega
              simp [this]
        · by_cases h2 : y.toNat < x.toNat
          · simp [h1, h2] at hab
          · simp only [h1, h2, if_false] at hab
            by_cases h3 : y.toNat < z.toNat
            · have : x.toNat < z.toNat := by omega
              simp [this]
            · by_cases h4 : z.toNat < y.toNat
              · simp [h3, h4] at hbc
              · simp only [h3, h4, if_false] at hbc
                have h5 : ¬ x.toNat < z.toNat := by omega
                have h6 : ¬ z.toNat < x.toNat := by omega
                simp only [h5, h6, if_false]
                exact ih ys zs hab hbc

/-- Sorting by key does not depend on the order the entries come in, as long as
no key occurs twice. -/
theorem insertionSort_keyLE_of_perm {l m : List (String × String)} (hp : l.Perm m)
    (hnd : (m.map Prod.fst).Nodup) : l.insertionSort keyLE = m.insertionSort keyLE := by
  haveI : IsTotal (String × String) keyLE := ⟨fun a b => bytesLE_total a.1.data b.1.data⟩
  haveI : IsTrans (String × String) keyLE :=
    ⟨fun a b c hab hbc => bytesLE_trans a.1.data b.1.data c.1.data hab hbc⟩
  haveI : IsAntisymm (String × String) keyLT :=
    ⟨fun a b hab hba =>
      absurd (String.ext (bytesLE_antisymm a.1.data b.1.data hab.1 hba.1)) hab.2⟩
  have strict : ∀ s : List (String × String), s.Perm m → (s.insertionSort keyLE).Sorted keyLT := by
    intro s hs
    have hsorted : (s.insertionSort keyLE).Pairwise keyLE := List.sorted_insertionSort keyLE s
    have hperm : (s.insertionSort keyLE).Perm m := (List.perm_insertionSort keyLE s).trans hs
    have hnodup : ((s.insertionSort keyLE).map Prod.fst).Nodup :=
      (hperm.map Prod.fst).nodup_iff.mpr hnd
    have hne : (s.insertionSort keyLE).Pairwise (fun a b => a.1 ≠ b.1) :=
      List.pairwise_map.mp hnodup
    exact hsorted.and hne
  have hperm : (l.insertionSort keyLE).Perm (m.insertionSort keyLE) :=
    ((List.perm_insertionSort keyLE l).trans hp).trans (List.perm_insertionSort keyLE m).symm
  exact List.eq_of_perm_of_sorted hperm (strict l hp) (strict m (List.Perm.refl m))


/-! ## Lemmas on the generation call and the constructor -/

theorem Sprintf_dirSlashFile (dir ls : String) :
    Sprintf "%s/%s" [.str dir, .str ls] = dir ++ "/" ++ ls := by
  apply String.ext
  have hf : ("%s/%s" : String).data = ['%', 's', '/', '%', 's'] := rfl
  have hs : ("/" : String).data = ['/'] := rfl
  simp [Sprintf, hf, hs, sprintfChars, formatVerb, extraReport]

theorem foldl_flatten (rf : List (String × String)) :
    ∀ arr : List String,
      rf.foldl (fun arr e => arr ++ [Sprintf "%s/%s" [.str e.1, .str e.2]]) arr
        = arr ++ rf.map dirSlashFile := by
  induction rf with
  | nil => intro arr; simp
  | cons e rest ih =>
    intro arr
    rw [List.foldl_cons, ih, Sprintf_dirSlashFile, List.map_cons, List.append_assoc,
      List.singleton_append]
    rfl

theorem flattenRelatedFiles_eq_map (rf : List (String × String)) :
    flattenRelatedFiles rf = rf.map dirSlashFile := by
  unfold flattenRelatedFiles
  rw [foldl_flatten, List.nil_append]

/-- On non-nil pointers `AnalyzeChanges` makes one provider call, whatever the
provider answers. -/
theorem AnalyzeChanges_calls (g : GeminiService) (client : Client) (ctx : Context)
    (diff c : String) (rf : List (String × String)) (name : String) (lastCommits : List String) :
    (AnalyzeChanges (some g) client ctx diff (some c) (some rf) (some name) lastCommits).calls
      = [sentRequest g ctx diff c rf name lastCommits] := by
  cases hcl : client (sentRequest g ctx diff c rf name lastCommits) with
  | error err => rw [AnalyzeChanges_of_error g client ctx diff c rf name lastCommits err hcl]
  | ok resp =>
    unfold sentRequest at hcl
    simp only [AnalyzeChanges, GetUserPrompt_some, hcl, sentRequest]
    rcases resp with ⟨cands⟩
    cases cands with
    | nil => rfl
    | cons cand rest =>
      rcases cand with ⟨content⟩
      cases content with
      | none => rfl
      | some content =>
        rcases content with ⟨parts⟩
        cases parts <;> rfl

/-- The file line of the prompt: the joined file names stand between the line
introducing them and a line break. -/
theorem expectedPrompt_files_line (c diff : String) (fs lastCommits : List String) :
    contains (expectedPrompt c diff fs lastCommits)
      ("Neighboring files:\n" ++ ", ".intercalate fs ++ "\n") := by
  refine ⟨(promptHeader ++ contextSlot c ++ chooseLine ++ catalogJSON ++ "\n\n").data,
    ("\n" ++ historyBlock lastCommits ++ diffLine ++ diff).data, ?_⟩
  have h1 : neighborLine.data = ("\n\n" : String).data ++ ("Neighboring files:\n" : String).data := by
    decide
  simp only [expectedPrompt, String.data_append, h1, List.append_assoc]
  rfl

/-- Two prompts that differ only in the file list are equal only if the joined
file names are. -/
theorem expectedPrompt_files_injective (c diff : String) (fs1 fs2 lastCommits : List String)
    (h : expectedPrompt c diff fs1 lastCommits = expectedPrompt c diff fs2 lastCommits) :
    ", ".intercalate fs1 = ", ".intercalate fs2 := by
  have hd := congrArg String.data h
  simp only [expectedPrompt, String.data_append, List.append_assoc] at hd
  have h1 := List.append_cancel_left hd
  have h2 := List.append_cancel_left h1
  have h3 := List.append_cancel_left h2
  have h4 := List.append_cancel_left h3
  have h5 := List.append_cancel_left h4
  exact String.ext (List.append_cancel_right h5)

theorem NewGeminiService_processStart :
    NewGeminiService processStart = (⟨[⟨systemPromptText⟩], some 0, true⟩, some 0) := rfl

theorem NewGeminiService_done (w : Globals) (h : w.geminiOnce = true) :
    NewGeminiService w = (w, w.geminiService) := by
  simp [NewGeminiService, onceDo, h]

theorem callsOfNewGeminiService_done (n : Nat) (w : Globals) (h : w.geminiOnce = true) :
    callsOfNewGeminiService n w = (w, List.replicate n w.geminiService) := by
  induction n with
  | zero => rfl
  | succ n ih =>
    simp only [callsOfNewGeminiService, NewGeminiService_done w h, ih, List.replicate_succ]


/-! ## The claims, continued -/

/-- C11 fails on the code: after a call on a reference holding `fix login bug`
the caller's string is still `fix login bug`, not the intent line. -/
theorem context_cell_not_rewritten :
    (GetUserPrompt ⟨systemPromptText⟩ (some "fix login bug") "+ line" ["a.go"] []).context
      = some "fix login bug"
    ∧ (GetUserPrompt ⟨systemPromptText⟩ (some "fix login bug") "+ line" ["a.go"] []).context
      ≠ some "Use the following context to understand intent: fix login bug" := by
  rw [GetUserPrompt_some]
  exact ⟨rfl, by decide⟩

/-- C11 as amended: on a reference holding a non-empty string `c` the rewrite
is made on a fresh local string; after the call the caller's string is still
`c`, and the intent line built from `c` stands in the context slot of the
returned prompt. -/
theorem context_rewrite_is_local (g : GeminiService) (c diff : String)
    (files lastCommits : List String) (h : c ≠ "") :
    (GetUserPrompt g (some c) diff files lastCommits).context = some c
    ∧ (GetUserPrompt g (some c) diff files lastCommits).outcome
      = .returned
          (promptHeader ++ ("Use the following context to understand intent: " ++ c)
            ++ chooseLine ++ catalogJSON ++ neighborLine ++ ", ".intercalate files ++ "\n\n"
            ++ historyBlock lastCommits ++ diffLine ++ diff)
          none := by
  rw [GetUserPrompt_some]
  refine ⟨rfl, ?_⟩
  simp only [expectedPrompt, contextSlot, if_neg h]
  rfl

/-- Witness of the amended C11: the context `fix login bug`. -/
theorem context_rewrite_is_local_witness :
    (GetUserPrompt ⟨systemPromptText⟩ (some "fix login bug") "+ line" ["a.go"] []).context
      = some "fix login bug" :=
  (context_rewrite_is_local ⟨systemPromptText⟩ "fix login bug" "+ line" ["a.go"] []
    (by decide)).1

/-- C12: when the provider call succeeds with a response whose first candidate
has content starting with a text part, `AnalyzeChanges` returns that text and a
nil error, whatever the later parts and the later candidates are. -/
theorem AnalyzeChanges_returns_first_part (g : GeminiService) (client : Client) (ctx : Context)
    (diff c : String) (rf : List (String × String)) (name : String) (lastCommits : List String)
    (t : String) (laterParts : List Part) (laterCandidates : List Candidate)
    (h : client (sentRequest g ctx diff c rf name lastCommits)
      = .ok ⟨⟨some ⟨.text t :: laterParts⟩⟩ :: laterCandidates⟩) :
    (AnalyzeChanges (some g) client ctx diff (some c) (some rf) (some name) lastCommits).outcome
      = .returned t none := by
  rw [AnalyzeChanges_of_response g client ctx diff c rf name lastCommits _ h]
  have hv : Sprintf "%v" [.part (.text t)] = t := by
    apply String.ext
    have hf : ("%v" : String).data = ['%', 'v'] := rfl
    simp [Sprintf, hf, sprintfChars, formatVerb, Arg.verbV, extraReport]
  simp only [hv]

/-- Witness of C12: a response with two parts and two candidates. -/
theorem AnalyzeChanges_returns_first_part_witness :
    (AnalyzeChanges (some ⟨systemPromptText⟩)
        (fun _ => .ok ⟨[⟨some ⟨[.text "feat: added login", .text "second part"]⟩⟩,
          ⟨some ⟨[.text "fix: second candidate"]⟩⟩]⟩)
        ⟨none⟩ "+ line" (some "") (some [("cmd", "main.go")]) (some "gemini-1.5-flash")
        []).outcome = .returned "feat: added login" none :=
  AnalyzeChanges_returns_first_part ⟨systemPromptText⟩
    (fun _ => .ok ⟨[⟨some ⟨[.text "feat: added login", .text "second part"]⟩⟩,
      ⟨some ⟨[.text "fix: second candidate"]⟩⟩]⟩)
    ⟨none⟩ "+ line" "" [("cmd", "main.go")] "gemini-1.5-flash" [] "feat: added login"
    [.text "second part"] [⟨some ⟨[.text "fix: second candidate"]⟩⟩] rfl

/-- C13: the flattened list has one entry per map entry, in range order, each
being directory, slash, file name; whatever order the map is ranged over it is a
permutation of these strings; and it is the file list of the prompt that
`AnalyzeChanges` builds and sends. -/
theorem related_files_flattened (rf : List (String × String)) :
    flattenRelatedFiles rf = rf.map (fun e => e.1 ++ "/" ++ e.2)
    ∧ (flattenRelatedFiles rf).length = rf.length
    ∧ (∀ order : List (String × String), order.Perm rf →
        (flattenRelatedFiles order).Perm (rf.map (fun e => e.1 ++ "/" ++ e.2)))
    ∧ ∀ (g : GeminiService) (client : Client) (ctx : Context) (diff c name : String)
        (lastCommits : List String),
        ∃ p : String,
          (GetUserPrompt g (some c) diff (rf.map (fun e => e.1 ++ "/" ++ e.2))
            lastCommits).outcome = .returned p none
          ∧ ((AnalyzeChanges (some g) client ctx diff (some c) (some rf) (some name)
              lastCommits).calls.map Request.parts) = [[.text p]] := by
  have hmap : ∀ l : List (String × String),
      flattenRelatedFiles l = l.map (fun e => e.1 ++ "/" ++ e.2) :=
    fun l => flattenRelatedFiles_eq_map l
  refine ⟨hmap rf, by rw [hmap, List.length_map], ?_, ?_⟩
  · intro order horder
    rw [hmap]
    exact horder.map _
  · intro g client ctx diff c name lastCommits
    refine ⟨_, by rw [GetUserPrompt_some], ?_⟩
    rw [AnalyzeChanges_calls, ← hmap]
    rfl

/-- C14: in a run of one or more calls of `NewGeminiService` from process start
every call returns the same pointer, one service object exists in the end and
it was allocated by the first call, it holds the system prompt, and the state
after any number of calls is the state the first call left. -/
theorem NewGeminiService_constructs_once (n : Nat) :
    (callsOfNewGeminiService (n + 1) processStart).2 = List.replicate (n + 1) (some 0)
    ∧ (callsOfNewGeminiService (n + 1) processStart).1.objects = [⟨systemPromptText⟩]
    ∧ (NewGeminiService processStart).1.objects = [⟨systemPromptText⟩]
    ∧ deref (callsOfNewGeminiService (n + 1) processStart).1 (some 0)
        = some ⟨systemPromptText⟩
    ∧ (callsOfNewGeminiService (n + 1) processStart).1 = (NewGeminiService processStart).1 := by
  have hrun : callsOfNewGeminiService (n + 1) processStart
      = (⟨[⟨systemPromptText⟩], some 0, true⟩, List.replicate (n + 1) (some 0)) := by
    simp only [callsOfNewGeminiService, NewGeminiService_processStart,
      callsOfNewGeminiService_done n ⟨[⟨systemPromptText⟩], some 0, true⟩ rfl,
      List.replicate_succ]
  rw [hrun, NewGeminiService_processStart]
  exact ⟨rfl, rfl, rfl, rfl, rfl⟩


/-- C15 fails on the code for a nil pointer: with a nil `modelName`, and
likewise with a nil receiver, the call panics on the dereference before the
provider is reached, so no generation call is issued. -/
theorem AnalyzeChanges_nil_model_makes_no_call :
    (AnalyzeChanges (some ⟨systemPromptText⟩)
        (fun _ => .ok ⟨[⟨some ⟨[.text "feat: added login"]⟩⟩]⟩)
        ⟨none⟩ "+ line" (some "") (some [("cmd", "main.go")]) none []).calls = []
    ∧ (AnalyzeChanges (some ⟨systemPromptText⟩)
        (fun _ => .ok ⟨[⟨some ⟨[.text "feat: added login"]⟩⟩]⟩)
        ⟨none⟩ "+ line" (some "") (some [("cmd", "main.go")]) none []).outcome
      = .panicked nilDereference
    ∧ (AnalyzeChanges none (fun _ => .ok ⟨[⟨some ⟨[.text "feat: added login"]⟩⟩]⟩)
        ⟨none⟩ "+ line" (some "") (some [("cmd", "main.go")]) (some "gemini-1.5-flash")
        []).calls = [] := ⟨rfl, rfl, rfl⟩

/-- C15 as amended: on a non-nil receiver and non-nil `userContext`,
`relatedFiles` and `modelName`, whatever the provider answers, `AnalyzeChanges`
issues one generation call, on the model named by `modelName`, with the four
safety settings harassment, hate speech, dangerous content and sexually
explicit at block-none, the service's system prompt as system instruction, and
as user prompt the string `GetUserPrompt` returns for the context, the diff,
the flattened related files and the commits; the service the constructor hands
out holds the seven-rule directive. -/
theorem AnalyzeChanges_one_call (g : GeminiService) (client : Client) (ctx : Context)
    (diff c : String) (rf : List (String × String)) (name : String) (lastCommits : List String) :
    (∃ p : String,
      (GetUserPrompt g (some c) diff (flattenRelatedFiles rf) lastCommits).outcome
        = .returned p none
      ∧ (AnalyzeChanges (some g) client ctx diff (some c) (some rf) (some name) lastCommits).calls
        = [⟨ctx,
            ⟨name,
              [⟨.HarmCategoryHarassment, .HarmBlockNone⟩,
               ⟨.HarmCategoryHateSpeech, .HarmBlockNone⟩,
               ⟨.HarmCategoryDangerousContent, .HarmBlockNone⟩,
               ⟨.HarmCategorySexuallyExplicit, .HarmBlockNone⟩],
              some ⟨[.text g.systemPrompt]⟩⟩,
            [.text p]⟩])
    ∧ deref (NewGeminiService processStart).1 (NewGeminiService processStart).2
      = some ⟨"You are a commit message generator that follows these rules:\n1. Write in past tense (e.g., \"added\", \"fixed\", \"updated\")\n2. Be concise and direct\n3. Output the commit message as raw text without any formatting, quotes, or code blocks\n4. Follow the format: <type>(<optional scope>): <commit message>\n5. Commit message should starts with lowercase letter.\n6. Commit message must be a maximum of 72 characters.\n7. Exclude anything unnecessary such as translation. Your entire response will be passed directly into git commit."⟩ := by
  refine ⟨⟨_, by rw [GetUserPrompt_some], ?_⟩, rfl⟩
  rw [AnalyzeChanges_calls]
  rfl

set_option maxRecDepth 100000 in
/-- C17: in whatever order the entries of the type mapping come, `json.Marshal`
yields the same catalog text; its 11 keys stand in the order build, chore, ci,
docs, feat, fix, perf, refactor, revert, style, test, which is strictly
ascending byte-wise; and every prompt embeds this text. -/
theorem catalog_key_order_stable (m : List (String × String))
    (hm : m.Perm conventionalTypesMap) :
    jsonMarshal m = .ok catalogJSON
    ∧ (∃ members : List (String × String), readObject catalogJSON.data = some members
        ∧ members.map Prod.fst
          = ["build", "chore", "ci", "docs", "feat", "fix", "perf", "refactor", "revert",
              "style", "test"])
    ∧ (["build", "chore", "ci", "docs", "feat", "fix", "perf", "refactor", "revert",
          "style", "test"] : List String).Pairwise
        (fun a b => bytesLE a.data b.data = true ∧ bytesLE b.data a.data = false)
    ∧ ∀ (g : GeminiService) (c diff : String) (files lastCommits : List String),
        ∃ pre post : String, (GetUserPrompt g (some c) diff files lastCommits).outcome
          = .returned (pre ++ catalogJSON ++ post) none := by
  refine ⟨?_, ?_, by decide, ?_⟩
  · have hsort : m.insertionSort keyLE = conventionalTypesMap.insertionSort keyLE :=
      insertionSort_keyLE_of_perm hm (by decide)
    have hsame := jsonMarshal_conventionalTypes
    unfold jsonMarshal at hsame ⊢
    rw [hsort]
    exact hsame
  · have hread : readObject catalogJSON.data = some (conventionalTypesMap.insertionSort keyLE) := by
      decide
    exact ⟨_, hread, by decide⟩
  · intro g c diff files lastCommits
    refine ⟨promptHeader ++ contextSlot c ++ chooseLine,
      neighborLine ++ ", ".intercalate files ++ "\n\n" ++ historyBlock lastCommits ++ diffLine
        ++ diff, ?_⟩
    rw [GetUserPrompt_some]
    simp only [expectedPrompt, String.append_assoc]

/-- Witness of C17: the source mapping listed backwards. -/
theorem catalog_key_order_stable_witness :
    jsonMarshal conventionalTypesMap.reverse = .ok catalogJSON :=
  (catalog_key_order_stable conventionalTypesMap.reverse (List.reverse_perm _)).1

/-- C18: for the mapping with the entries `a -> x.go` and `b -> y.go` the two
iteration orders give two different user prompts, one with the file line
`a/x.go, b/y.go` and one with `b/y.go, a/x.go`; for a mapping with at most one
entry every iteration order gives the same provider call. -/
theorem prompt_depends_on_iteration_order (g : GeminiService) (client : Client) (ctx : Context)
    (diff c name : String) (lastCommits : List String) :
    ([("b", "y.go"), ("a", "x.go")] : List (String × String)).Perm [("a", "x.go"), ("b", "y.go")]
    ∧ (AnalyzeChanges (some g) client ctx diff (some c) (some [("a", "x.go"), ("b", "y.go")])
          (some name) lastCommits).calls.map Request.parts
        ≠ (AnalyzeChanges (some g) client ctx diff (some c) (some [("b", "y.go"), ("a", "x.go")])
          (some name) lastCommits).calls.map Request.parts
    ∧ (∃ p1 p2 : String,
        (AnalyzeChanges (some g) client ctx diff (some c) (some [("a", "x.go"), ("b", "y.go")])
          (some name) lastCommits).calls.map Request.parts = [[.text p1]]
        ∧ (AnalyzeChanges (some g) client ctx diff (some c) (some [("b", "y.go"), ("a", "x.go")])
          (some name) lastCommits).calls.map Request.parts = [[.text p2]]
        ∧ contains p1 "Neighboring files:\na/x.go, b/y.go\n"
        ∧ contains p2 "Neighboring files:\nb/y.go, a/x.go\n")
    ∧ ∀ rf order : List (String × String), order.Perm rf → rf.length ≤ 1 →
        (AnalyzeChanges (some g) client ctx diff (some c) (some order) (some name) lastCommits).calls
          = (AnalyzeChanges (some g) client ctx diff (some c) (some rf) (some name) lastCommits).calls := by
  have hf1 : flattenRelatedFiles [("a", "x.go"), ("b", "y.go")] = ["a/x.go", "b/y.go"] := by
    rw [flattenRelatedFiles_eq_map]; decide
  have hf2 : flattenRelatedFiles [("b", "y.go"), ("a", "x.go")] = ["b/y.go", "a/x.go"] := by
    rw [flattenRelatedFiles_eq_map]; decide
  refine ⟨List.Perm.swap _ _ _, ?_, ?_, ?_⟩
  · rw [AnalyzeChanges_calls, AnalyzeChanges_calls]
    simp only [sentRequest, hf1, hf2, List.map_cons, List.map_nil]
    intro heq
    have hp : expectedPrompt c diff ["a/x.go", "b/y.go"] lastCommits
        = expectedPrompt c diff ["b/y.go", "a/x.go"] lastCommits := by
      simpa using heq
    have hj := expectedPrompt_files_injective c diff _ _ lastCommits hp
    revert hj
    decide
  · refine ⟨expectedPrompt c diff ["a/x.go", "b/y.go"] lastCommits,
      expectedPrompt c diff ["b/y.go", "a/x.go"] lastCommits, ?_, ?_, ?_, ?_⟩
    · rw [AnalyzeChanges_calls]; simp only [sentRequest, hf1, List.map_cons, List.map_nil]
    · rw [AnalyzeChanges_calls]; simp only [sentRequest, hf2, List.map_cons, List.map_nil]
    · exact expectedPrompt_files_line c diff ["a/x.go", "b/y.go"] lastCommits
    · exact expectedPrompt_files_line c diff ["b/y.go", "a/x.go"] lastCommits
  · intro rf order horder hlen
    have heq : order = rf := by
      cases rf with
      | nil => exact List.Perm.eq_nil horder
      | cons e rest =>
        cases rest with
        | nil => exact List.perm_singleton.mp horder
        | cons e2 rest2 => simp at hlen
    rw [heq]

/-- Witness of C18: with a provider that fails every call, the two orders of
the two-entry mapping give different user prompts, and the one-entry mapping
`cmd -> main.go` gives the same call under its only order. -/
theorem prompt_depends_on_iteration_order_witness :
    (AnalyzeChanges (some ⟨systemPromptText⟩) (fun _ => .error .contextCanceled) ⟨none⟩ "+ line"
        (some "") (some [("a", "x.go"), ("b", "y.go")]) (some "gemini-1.5-flash")
        []).calls.map Request.parts
      ≠ (AnalyzeChanges (some ⟨systemPromptText⟩) (fun _ => .error .contextCanceled) ⟨none⟩ "+ line"
        (some "") (some [("b", "y.go"), ("a", "x.go")]) (some "gemini-1.5-flash")
        []).calls.map Request.parts
    ∧ (AnalyzeChanges (some ⟨systemPromptText⟩) (fun _ => .error .contextCanceled) ⟨none⟩ "+ line"
        (some "") (some [("cmd", "main.go")]) (some "gemini-1.5-flash") []).calls
      = (AnalyzeChanges (some ⟨systemPromptText⟩) (fun _ => .error .contextCanceled) ⟨none⟩ "+ line"
        (some "") (some [("cmd", "main.go")]) (some "gemini-1.5-flash") []).calls :=
  ⟨(prompt_depends_on_iteration_order ⟨systemPromptText⟩ (fun _ => .error .contextCanceled)
      ⟨none⟩ "+ line" "" "gemini-1.5-flash" []).2.1,
    (prompt_depends_on_iteration_order ⟨systemPromptText⟩ (fun _ => .error .contextCanceled)
      ⟨none⟩ "+ line" "" "gemini-1.5-flash" []).2.2.2 [("cmd", "main.go")] [("cmd", "main.go")]
      (List.Perm.refl _) (by decide)⟩

/-- C19 fails on the code for a nil receiver: with `userContext`,
`relatedFiles` and `modelName` non-nil and a provider that answers with a
candidate holding a text part, a call on a nil receiver panics with a nil
dereference at `g.systemPrompt`, before the provider is reached. -/
theorem AnalyzeChanges_nil_receiver_panics :
    indexable ⟨[⟨some ⟨[.text "chore: updated readme"]⟩⟩]⟩ = true
    ∧ (AnalyzeChanges none (fun _ => .ok ⟨[⟨some ⟨[.text "chore: updated readme"]⟩⟩]⟩)
        ⟨none⟩ "+ line" (some "") (some [("cmd", "main.go")]) (some "gemini-1.5-flash")
        ["feat: added login"]).outcome = .panicked nilDereference
    ∧ (AnalyzeChanges none (fun _ => .ok ⟨[⟨some ⟨[.text "chore: updated readme"]⟩⟩]⟩)
        ⟨none⟩ "+ line" (some "") (some [("cmd", "main.go")]) (some "gemini-1.5-flash")
        ["feat: added login"]).calls = [] := ⟨rfl, rfl, rfl⟩

/-- C19 as amended: on a non-nil receiver and non-nil `userContext`,
`relatedFiles` and `modelName`, when the provider answers with an error, or
with a response that has a first candidate with non-nil content and a first
part, `AnalyzeChanges` returns with a nil error; on such pointers a panic
happens only after a successful provider call whose response cannot be indexed,
a provider error always ends in a return, and the process never exits. -/
theorem AnalyzeChanges_completes (g : GeminiService) (client : Client) (ctx : Context)
    (diff c : String) (rf : List (String × String)) (name : String) (lastCommits : List String)
    (h : (∃ err, client (sentRequest g ctx diff c rf name lastCommits) = .error err)
      ∨ ∃ resp, client (sentRequest g ctx diff c rf name lastCommits) = .ok resp
          ∧ indexable resp = true) :
    (∃ v : String,
      (AnalyzeChanges (some g) client ctx diff (some c) (some rf) (some name) lastCommits).outcome
        = .returned v none)
    ∧ (∀ (other : Client) (msg : String),
        (AnalyzeChanges (some g) other ctx diff (some c) (some rf) (some name) lastCommits).outcome
          = .panicked msg →
        ∃ resp, other (sentRequest g ctx diff c rf name lastCommits) = .ok resp
          ∧ indexable resp = false)
    ∧ (∀ (other : Client) (err : GoError),
        other (sentRequest g ctx diff c rf name lastCommits) = .error err →
        (AnalyzeChanges (some g) other ctx diff (some c) (some rf) (some name) lastCommits).outcome
          = .returned "" none)
    ∧ ∀ (other : Client) (code : Nat),
        (AnalyzeChanges (some g) other ctx diff (some c) (some rf) (some name) lastCommits).outcome
          ≠ .exited code := by
  have hresp : ∀ (other : Client) (resp : GenerateContentResponse),
      other (sentRequest g ctx diff c rf name lastCommits) = .ok resp →
      (indexable resp = true →
        ∃ v, (AnalyzeChanges (some g) other ctx diff (some c) (some rf) (some name)
          lastCommits).outcome = .returned v none)
      ∧ (indexable resp = false →
        ∃ msg, (AnalyzeChanges (some g) other ctx diff (some c) (some rf) (some name)
          lastCommits).outcome = .panicked msg) := by
    intro other resp hok
    rw [AnalyzeChanges_of_response g other ctx diff c rf name lastCommits resp hok]
    rcases resp with ⟨cands⟩
    cases cands with
    | nil => exact ⟨fun hi => by simp [indexable] at hi, fun _ => ⟨_, rfl⟩⟩
    | cons cand rest =>
      rcases cand with ⟨content⟩
      cases content with
      | none => exact ⟨fun hi => by simp [indexable] at hi, fun _ => ⟨_, rfl⟩⟩
      | some content =>
        rcases content with ⟨parts⟩
        cases parts with
        | nil => exact ⟨fun hi => by simp [indexable] at hi, fun _ => ⟨_, rfl⟩⟩
        | cons part parts => exact ⟨fun _ => ⟨_, rfl⟩, fun hi => by simp [indexable] at hi⟩
  refine ⟨?_, ?_, ?_, ?_⟩
  · rcases h with ⟨err, herr⟩ | ⟨resp, hok, hidx⟩
    · exact ⟨"", by rw [AnalyzeChanges_of_error g client ctx diff c rf name lastCommits err herr]⟩
    · exact (hresp client resp hok).1 hidx
  · intro other msg hpanic
    cases hcl : other (sentRequest g ctx diff c rf name lastCommits) with
    | error err =>
      rw [AnalyzeChanges_of_error g other ctx diff c rf name lastCommits err hcl] at hpanic
      cases hpanic
    | ok resp =>
      refine ⟨resp, rfl, ?_⟩
      cases hidx : indexable resp with
      | false => rfl
      | true =>
        obtain ⟨v, hv⟩ := (hresp other resp hcl).1 hidx
        rw [hv] at hpanic
        cases hpanic
  · intro other err herr
    rw [AnalyzeChanges_of_error g other ctx diff c rf name lastCommits err herr]
  · intro other code hexit
    cases hcl : other (sentRequest g ctx diff c rf name lastCommits) with
    | error err =>
      rw [AnalyzeChanges_of_error g other ctx diff c rf name lastCommits err hcl] at hexit
      cases hexit
    | ok resp =>
      cases hidx : indexable resp with
      | false =>
        obtain ⟨msg, hmsg⟩ := (hresp other resp hcl).2 hidx
        rw [hmsg] at hexit
        cases hexit
      | true =>
        obtain ⟨v, hv⟩ := (hresp other resp hcl).1 hidx
        rw [hv] at hexit
        cases hexit

/-- Witness of the amended C19: an empty diff, no commit, an empty mapping and a provider
that answers with one candidate holding one text part. -/
theorem AnalyzeChanges_completes_witness :
    ∃ v : String,
      (AnalyzeChanges (some ⟨systemPromptText⟩)
        (fun _ => .ok ⟨[⟨some ⟨[.text "chore: updated readme"]⟩⟩]⟩) ⟨none⟩ "" (some "")
        (some []) (some "gemini-1.5-flash") []).outcome = .returned v none :=
  (AnalyzeChanges_completes ⟨systemPromptText⟩
    (fun _ => .ok ⟨[⟨some ⟨[.text "chore: updated readme"]⟩⟩]⟩) ⟨none⟩ "" "" []
    "gemini-1.5-flash" []
    (Or.inr ⟨⟨[⟨some ⟨[.text "chore: updated readme"]⟩⟩]⟩, rfl, rfl⟩)).1

end GeminiCommit
